import Mathlib

/-!
Verification of the bounded task queue in `src/function_queue.c` of the
`qthreads` repository.

The queue is a fixed-capacity circular buffer with fields `front`, `back`,
`size`, `max_elements` and an `elements` array, protected by a recursive
pthread mutex.  We embed each C function as a pure Lean function over an
explicit queue state.  The outcomes of the pthread primitive calls, which are
environment-dependent, are passed in as boolean parameters:

* `acqOk`   — the initial `pthread_mutex_lock`/`pthread_mutex_trylock`
  returned 0;
* `relOk`   — the final `pthread_mutex_unlock` returned 0;
* `nestedAcqOk` (peek only) — the lock attempt made by the nested
  `fq_is_empty` call returned 0.  When the outer acquisition succeeded the
  nested acquisition always succeeds, because the mutex is created with
  `PTHREAD_MUTEX_RECURSIVE` and a recursive mutex can be re-acquired by the
  thread that holds it.

All counters are C `unsigned int`s, so increments and decrements are taken
modulo `2^32` (`UINT_MOD`); `--q->size` at `size = 0` would wrap to
`UINT_MOD - 1`.
-/

/-- Modulus of the C `unsigned int` arithmetic used for `front`, `back` and
`size` (32-bit). -/
def UINT_MOD : Nat := 4294967296

/-- The error codes of `pt_error.h` that `function_queue.c` uses.
`PT_SUCCESS` is the zero value of the C enum. -/
inductive PtError where
  | PT_SUCCESS
  | PT_EPO
  | PT_EPML
  | PT_EPMAI
  | PT_EPMU
  | PT_EPMD
  | PT_EPMTL
  | PT_EMALLOC
  | PT_EFQFULL
  | PT_EFQEMPTY
deriving DecidableEq, Repr

/-- The state of a `struct function_queue`: the mutable fields guarded by the
lock.  `elements` is the malloc'd array of `max_elements` slots; tasks are
modelled by an arbitrary inhabited type `α`. -/
structure function_queue (α : Type) where
  front : Nat
  back : Nat
  size : Nat
  max_elements : Nat
  elements : List α
deriving DecidableEq, Repr

/-- The error reported when lock acquisition itself fails:
`PT_EPML` after a failed blocking `pthread_mutex_lock`, `PT_EPMTL` after a
failed `pthread_mutex_trylock` (lines 128-133, 169-174, 239-244 of
`function_queue.c`). -/
def lockFailErr (block : Bool) : PtError :=
  if block then PtError.PT_EPML else PtError.PT_EPMTL

/-- The index increment used by push, pop and peek
(`if(++i == q->max_elements) i = 0;`): increment modulo `2^32`, then reset to
0 on reaching `max_elements`. -/
def incWrap (i cap : Nat) : Nat :=
  let t := (i + 1) % UINT_MOD
  if t = cap then 0 else t

/-- `--q->size` on a C `unsigned int`: decrement modulo `2^32`. -/
def decWrap (s : Nat) : Nat :=
  (s + (UINT_MOD - 1)) % UINT_MOD

/-- Shallow embedding of `fq_push` (`function_queue.c` lines 98-136).
The nested `fq_is_full(q, &is_full, block)` call stores
`q->size == q->max_elements` into `is_full` whenever it runs (see `fq_is_full`
below: it tests `ret == 0`, which holds at that point, so it always stores),
hence the full test here is exactly `q.size == q.max_elements`.  On the
non-full path the code does `++q->size`, advances `back` with the wrap
increment, and writes `e` at the new `back`. -/
def fq_push {α : Type} (q : function_queue α) (e : α) (block acqOk relOk : Bool) :
    PtError × function_queue α :=
  if acqOk then
    let q' :=
      if q.size == q.max_elements then q
      else
        { q with
          size := (q.size + 1) % UINT_MOD
          back := incWrap q.back q.max_elements
          elements := q.elements.set (incWrap q.back q.max_elements) e }
    let ret :=
      if q.size == q.max_elements then PtError.PT_EFQFULL else PtError.PT_SUCCESS
    if relOk then (ret, q') else (PtError.PT_EPMU, q')
  else
    (lockFailErr block, q)

/-- Shallow embedding of `fq_pop` (`function_queue.c` lines 138-177).
The nested `fq_is_empty` call runs under the already-held recursive lock, so
it stores `q->size == 0`.  On the non-empty path the code does `--q->size`,
advances `front` with the wrap increment, and copies `q->elements[q->front]`
(the advanced `front`) into `*e`; the `Option α` component models whether
`*e` was written. -/
def fq_pop {α : Type} [Inhabited α] (q : function_queue α) (block acqOk relOk : Bool) :
    PtError × Option α × function_queue α :=
  if acqOk then
    if q.size == 0 then
      (if relOk then PtError.PT_EFQEMPTY else PtError.PT_EPMU, none, q)
    else
      (if relOk then PtError.PT_SUCCESS else PtError.PT_EPMU,
       some (q.elements.getD (incWrap q.front q.max_elements) default),
       { q with size := decWrap q.size, front := incWrap q.front q.max_elements })
  else
    (lockFailErr block, none, q)

/-- Shallow embedding of `fq_peek` (`function_queue.c` lines 179-218).
Line 190 tests `ret == 0` — but `ret` still holds its initializer
`PT_SUCCESS` there, so the critical-section branch is taken even when the
lock acquisition failed (`pml != 0`); the `else` branch that would return
`PT_EPMTL`/`PT_EPML` is dead code.  The nested `fq_is_empty` stores
`q->size == 0` into `is_empty` iff its own lock attempt succeeds (which it
always does when the outer acquisition succeeded, the mutex being recursive);
otherwise `is_empty` keeps its initializer 0 and the queue is treated as
non-empty.  On the non-empty path the code reads
`q->elements[(front + 1 wrapped)]` without mutating the queue. -/
def fq_peek {α : Type} [Inhabited α] (q : function_queue α)
    (block acqOk nestedAcqOk relOk : Bool) :
    PtError × Option α × function_queue α :=
  let is_empty := (acqOk || nestedAcqOk) && q.size == 0
  if is_empty then
    (if relOk then PtError.PT_EFQEMPTY else PtError.PT_EPMU, none, q)
  else
    (if relOk then PtError.PT_SUCCESS else PtError.PT_EPMU,
     some (q.elements.getD (incWrap q.front q.max_elements) default), q)

/-- Shallow embedding of `fq_is_empty` (`function_queue.c` lines 220-247).
This one tests `pml == 0` correctly: the stored boolean is `q->size == 0`
and it is only produced when the lock was acquired. -/
def fq_is_empty {α : Type} (q : function_queue α) (block acqOk relOk : Bool) :
    PtError × Option Bool :=
  if acqOk then
    (if relOk then PtError.PT_SUCCESS else PtError.PT_EPMU,
     some (decide (q.size = 0)))
  else
    (lockFailErr block, none)

/-- Shallow embedding of `fq_is_full` (`function_queue.c` lines 249-275).
Line 260 tests `ret == 0` — but `ret` still holds `PT_SUCCESS` there, so the
body runs and `*is_empty` is written with `q->size == q->max_elements`
regardless of whether the lock acquisition (`pml`) succeeded; the branch
returning `PT_EPMTL`/`PT_EPML` is dead code. -/
def fq_is_full {α : Type} (q : function_queue α) (block acqOk relOk : Bool) :
    PtError × Option Bool :=
  let _pml := acqOk
  let _block := block
  (if relOk then PtError.PT_SUCCESS else PtError.PT_EPMU,
   some (decide (q.size = q.max_elements)))

/-- The queue state produced by the success path of `fq_init`
(`function_queue.c` lines 57-63): `front = back = size = 0` and a fresh
buffer of `max_elements` slots (malloc'd, contents indeterminate — modelled
as `default`). -/
def fq_init_ok (α : Type) [Inhabited α] (max_elements : Nat) : function_queue α :=
  { front := 0, back := 0, size := 0, max_elements := max_elements,
    elements := List.replicate max_elements default }

/-- Shallow embedding of `fq_init` (`function_queue.c` lines 44-80), with the
outcomes of `pthread_once`, `pthread_mutexattr_init`,
`pthread_mutexattr_settype`, `pthread_mutex_init`, `malloc` and (on the
malloc-failure path) `pthread_mutex_destroy` passed as booleans. -/
def fq_init (α : Type) [Inhabited α] (max_elements : Nat)
    (po attrInit attrSettype mutexOk allocOk destroyOk : Bool) :
    PtError × Option (function_queue α) :=
  if po then
    if !attrInit then (PtError.PT_EPML, none)
    else if !attrSettype then (PtError.PT_EPMAI, none)
    else if mutexOk then
      if allocOk then (PtError.PT_SUCCESS, some (fq_init_ok α max_elements))
      else
        (if destroyOk then PtError.PT_EMALLOC else PtError.PT_EPMU, none)
    else (PtError.PT_EPML, none)
  else (PtError.PT_EPO, none)

/-- `fq_push` with the lock behaving normally (acquisition and release both
succeed); the `block` flag is then irrelevant and fixed to blocking mode. -/
def push1 {α : Type} (q : function_queue α) (e : α) : PtError × function_queue α :=
  fq_push q e true true true

/-- `fq_pop` with the lock behaving normally. -/
def pop1 {α : Type} [Inhabited α] (q : function_queue α) :
    PtError × Option α × function_queue α :=
  fq_pop q true true true

/-- `fq_peek` with the lock behaving normally. -/
def peek1 {α : Type} [Inhabited α] (q : function_queue α) :
    PtError × Option α × function_queue α :=
  fq_peek q true true true true

/-- Well-formedness of a queue state, as established by `fq_init` and
preserved by the operations: the capacity fits in an `unsigned int`, the
buffer has exactly `max_elements` slots, `size` is at most the capacity, the
indices are in range, and `back` is `front + size` modulo the capacity. -/
def function_queue.WF {α : Type} (q : function_queue α) : Prop :=
  q.max_elements < UINT_MOD ∧
  q.elements.length = q.max_elements ∧
  q.size ≤ q.max_elements ∧
  (0 < q.max_elements →
    q.front < q.max_elements ∧ q.back < q.max_elements ∧
    q.back = (q.front + q.size) % q.max_elements) ∧
  (q.max_elements = 0 → q.front = 0 ∧ q.back = 0)

instance {α : Type} (q : function_queue α) : Decidable q.WF := by
  unfold function_queue.WF; infer_instance

/-- The abstract contents of the queue, oldest first: the `size` live slots
starting at `(front + 1) % max_elements`. -/
def function_queue.toList {α : Type} [Inhabited α] (q : function_queue α) : List α :=
  (List.range q.size).map
    (fun i => q.elements.getD ((q.front + 1 + i) % q.max_elements) default)

example : (fq_init_ok Nat 2).WF := by decide
example : push1 (fq_init_ok Nat 2) 5 =
    (PtError.PT_SUCCESS, ⟨0, 1, 1, 2, [0, 5]⟩) := by decide
example : (fq_init_ok Nat 2).toList = [] := by decide
example : (push1 (fq_init_ok Nat 2) 5).2.toList = [5] := by decide

/-! ### Arithmetic helpers -/

/-- For an in-range index the C wrap increment is addition modulo the
capacity. -/
theorem incWrap_eq_mod {i cap : Nat} (hi : i < cap) (hcap : cap < UINT_MOD) :
    incWrap i cap = (i + 1) % cap := by
  unfold incWrap
  have h1 : i + 1 ≤ cap := hi
  have h2 : (i + 1) % UINT_MOD = i + 1 := Nat.mod_eq_of_lt (Nat.lt_of_le_of_lt h1 hcap)
  simp only [h2]
  by_cases h : i + 1 = cap
  · simp [h, Nat.mod_self]
  · have hlt : i + 1 < cap := Nat.lt_of_le_of_ne h1 h
    simp [h, Nat.mod_eq_of_lt hlt]

theorem incWrap_lt {i cap : Nat} (hi : i < cap) (hcap : cap < UINT_MOD) :
    incWrap i cap < cap := by
  rw [incWrap_eq_mod hi hcap]
  exact Nat.mod_lt _ (Nat.lt_of_le_of_lt (Nat.zero_le i) hi)

/-- For `1 ≤ s < 2^32` the C unsigned decrement is the ordinary one. -/
theorem decWrap_eq {s : Nat} (h1 : 1 ≤ s) (h2 : s < UINT_MOD) :
    decWrap s = s - 1 := by
  simp only [decWrap, UINT_MOD] at *
  omega

theorem succ_mod_uint {s cap : Nat} (hs : s < cap) (hcap : cap < UINT_MOD) :
    (s + 1) % UINT_MOD = s + 1 :=
  Nat.mod_eq_of_lt (by omega)

/-! ### Branch characterizations of the operations under a normal lock -/

theorem push1_full {α : Type} (q : function_queue α) (e : α)
    (h : q.size = q.max_elements) : push1 q e = (PtError.PT_EFQFULL, q) := by
  simp [push1, fq_push, h]

theorem push1_not_full {α : Type} (q : function_queue α) (e : α)
    (h : q.size ≠ q.max_elements) :
    push1 q e =
      (PtError.PT_SUCCESS,
       { q with
         size := (q.size + 1) % UINT_MOD
         back := incWrap q.back q.max_elements
         elements := q.elements.set (incWrap q.back q.max_elements) e }) := by
  simp [push1, fq_push, h]

theorem pop1_empty {α : Type} [Inhabited α] (q : function_queue α)
    (h : q.size = 0) : pop1 q = (PtError.PT_EFQEMPTY, none, q) := by
  simp [pop1, fq_pop, h]

theorem pop1_not_empty {α : Type} [Inhabited α] (q : function_queue α)
    (h : q.size ≠ 0) :
    pop1 q =
      (PtError.PT_SUCCESS,
       some (q.elements.getD (incWrap q.front q.max_elements) default),
       { q with size := decWrap q.size, front := incWrap q.front q.max_elements }) := by
  simp [pop1, fq_pop, h]

theorem toList_length {α : Type} [Inhabited α] (q : function_queue α) :
    q.toList.length = q.size := by
  simp [function_queue.toList]

theorem getD_set_same {α : Type} [Inhabited α] (l : List α) (w : Nat) (e : α)
    (h : w < l.length) : (l.set w e).getD w default = e := by
  rw [List.getD_eq_getElem?_getD, List.getElem?_set_self] <;> simp [h]

theorem getD_set_other {α : Type} [Inhabited α] (l : List α) (w j : Nat) (e : α)
    (h : w ≠ j) : (l.set w e).getD j default = l.getD j default := by
  rw [List.getD_eq_getElem?_getD, List.getD_eq_getElem?_getD, List.getElem?_set_ne h]

/-- A successful push appends the task to the abstract contents and preserves
well-formedness. -/
theorem push1_spec {α : Type} [Inhabited α] (q : function_queue α) (e : α)
    (hwf : q.WF) (hlt : q.size < q.max_elements) :
    (push1 q e).1 = PtError.PT_SUCCESS ∧
    (push1 q e).2.WF ∧
    (push1 q e).2.toList = q.toList ++ [e] ∧
    (push1 q e).2.size = q.size + 1 ∧
    (push1 q e).2.max_elements = q.max_elements := by
  obtain ⟨hcap, hlen, hsz, hrange, hzero⟩ := hwf
  have hcappos : 0 < q.max_elements := Nat.lt_of_le_of_lt (Nat.zero_le _) hlt
  obtain ⟨hf, hb, hfb⟩ := hrange hcappos
  have hne : q.size ≠ q.max_elements := Nat.ne_of_lt hlt
  have hs1 : (q.size + 1) % UINT_MOD = q.size + 1 := succ_mod_uint hlt hcap
  have hw : incWrap q.back q.max_elements = (q.front + 1 + q.size) % q.max_elements := by
    rw [incWrap_eq_mod hb hcap, hfb, Nat.mod_add_mod]
    congr 1
    omega
  have hwlt : (q.front + 1 + q.size) % q.max_elements < q.elements.length := by
    rw [hlen]; exact Nat.mod_lt _ hcappos
  have hne2 : ∀ i, i < q.size →
      (q.front + 1 + i) % q.max_elements ≠ (q.front + 1 + q.size) % q.max_elements := by
    intro i hi heq
    have hmod : Nat.ModEq q.max_elements i q.size :=
      (Nat.ModEq.refl (q.front + 1)).add_left_cancel heq
    have h1 : i % q.max_elements = i := Nat.mod_eq_of_lt (by omega)
    have h2 : q.size % q.max_elements = q.size := Nat.mod_eq_of_lt hlt
    unfold Nat.ModEq at hmod
    omega
  rw [push1_not_full q e hne]
  refine ⟨rfl, ?_, ?_, hs1, rfl⟩
  · unfold function_queue.WF
    dsimp only
    refine ⟨hcap, by simpa using hlen, by rw [hs1]; omega, ?_, by intro h0; omega⟩
    intro _
    refine ⟨hf, incWrap_lt hb hcap, ?_⟩
    rw [hs1, hw, show q.front + (q.size + 1) = q.front + 1 + q.size from by omega]
  · unfold function_queue.toList
    dsimp only
    rw [hs1, List.range_succ, List.map_append]
    congr 1
    · apply List.map_congr_left
      intro i hi
      rw [List.mem_range] at hi
      rw [hw, getD_set_other _ _ _ _ (Ne.symm (hne2 i hi))]
    · simp only [List.map_cons, List.map_nil, List.cons.injEq, and_true]
      rw [hw, getD_set_same _ _ _ hwlt]

/-- A successful pop returns the head of the abstract contents, leaves the
tail, and preserves well-formedness. -/
theorem pop1_spec {α : Type} [Inhabited α] (q : function_queue α)
    (hwf : q.WF) (hpos : 0 < q.size) :
    (pop1 q).1 = PtError.PT_SUCCESS ∧
    (pop1 q).2.1 = some (q.toList.headD default) ∧
    (pop1 q).2.2.WF ∧
    (pop1 q).2.2.toList = q.toList.tail ∧
    (pop1 q).2.2.size = q.size - 1 ∧
    (pop1 q).2.2.max_elements = q.max_elements := by
  obtain ⟨hcap, hlen, hsz, hrange, hzero⟩ := hwf
  have hcappos : 0 < q.max_elements := Nat.lt_of_lt_of_le hpos hsz
  obtain ⟨hf, hb, hfb⟩ := hrange hcappos
  have hne : q.size ≠ 0 := by omega
  have hdec : decWrap q.size = q.size - 1 :=
    decWrap_eq hpos (Nat.lt_of_le_of_lt hsz hcap)
  have hfr : incWrap q.front q.max_elements = (q.front + 1) % q.max_elements :=
    incWrap_eq_mod hf hcap
  have hsplit : List.range q.size = 0 :: (List.range (q.size - 1)).map Nat.succ := by
    conv_lhs => rw [show q.size = (q.size - 1) + 1 by omega]
    rw [List.range_succ_eq_map]
  rw [pop1_not_empty q hne]
  refine ⟨rfl, ?_, ?_, ?_, hdec, rfl⟩
  · dsimp only
    rw [hfr]
    unfold function_queue.toList
    rw [hsplit]
    simp
  · unfold function_queue.WF
    dsimp only
    refine ⟨hcap, hlen, by rw [hdec]; omega, ?_, by intro h0; omega⟩
    intro _
    refine ⟨by rw [hfr]; exact Nat.mod_lt _ hcappos, hb, ?_⟩
    rw [hdec, hfr, Nat.mod_add_mod, hfb,
      show q.front + 1 + (q.size - 1) = q.front + q.size from by omega]
  · unfold function_queue.toList
    dsimp only
    rw [hdec, hfr, hsplit]
    simp only [List.map_cons, List.tail_cons, List.map_map]
    apply List.map_congr_left
    intro i _
    dsimp [Function.comp]
    have hidx : ((q.front + 1) % q.max_elements + 1 + i) % q.max_elements
        = (q.front + 1 + Nat.succ i) % q.max_elements := by
      conv_lhs => rw [Nat.add_assoc, Nat.mod_add_mod,
        show q.front + 1 + (1 + i) = q.front + 1 + Nat.succ i from by omega]
    rw [hidx]

/-! ### Sequences of operations -/

/-- Run `push1` once per task of `l`, collecting the returned error codes. -/
def pushAll {α : Type} (q : function_queue α) :
    List α → List PtError × function_queue α
  | [] => ([], q)
  | e :: es =>
    let r := push1 q e
    let rest := pushAll r.2 es
    (r.1 :: rest.1, rest.2)

/-- Run `pop1` `n` times, collecting the returned error codes and values. -/
def popAll {α : Type} [Inhabited α] (q : function_queue α) :
    Nat → List (PtError × Option α) × function_queue α
  | 0 => ([], q)
  | n + 1 =>
    let r := pop1 q
    let rest := popAll r.2.2 n
    ((r.1, r.2.1) :: rest.1, rest.2)

theorem pushAll_spec {α : Type} [Inhabited α] (l : List α) :
    ∀ q : function_queue α, q.WF → q.size + l.length ≤ q.max_elements →
    (pushAll q l).1 = l.map (fun _ => PtError.PT_SUCCESS) ∧
    (pushAll q l).2.WF ∧
    (pushAll q l).2.toList = q.toList ++ l ∧
    (pushAll q l).2.size = q.size + l.length ∧
    (pushAll q l).2.max_elements = q.max_elements := by
  induction l with
  | nil =>
    intro q hwf _
    exact ⟨rfl, hwf, by simp [pushAll], by simp [pushAll], rfl⟩
  | cons e es ih =>
    intro q hwf hle
    have hlt : q.size < q.max_elements := by
      simp only [List.length_cons] at hle; omega
    obtain ⟨h1, h2, h3, h4, h5⟩ := push1_spec q e hwf hlt
    have hle2 : (push1 q e).2.size + es.length ≤ (push1 q e).2.max_elements := by
      rw [h4, h5]
      simp only [List.length_cons] at hle
      omega
    obtain ⟨g1, g2, g3, g4, g5⟩ := ih (push1 q e).2 h2 hle2
    simp only [pushAll]
    refine ⟨?_, g2, ?_, ?_, ?_⟩
    · simp only [List.map_cons]
      rw [h1, g1]
    · rw [g3, h3, List.append_assoc]
      rfl
    · rw [g4, h4]
      simp only [List.length_cons]
      omega
    · rw [g5, h5]

theorem popAll_spec {α : Type} [Inhabited α] (n : Nat) :
    ∀ q : function_queue α, q.WF → n ≤ q.size →
    (popAll q n).1 = (q.toList.take n).map (fun a => (PtError.PT_SUCCESS, some a)) ∧
    (popAll q n).2.WF ∧
    (popAll q n).2.toList = q.toList.drop n ∧
    (popAll q n).2.size = q.size - n ∧
    (popAll q n).2.max_elements = q.max_elements := by
  induction n with
  | zero =>
    intro q hwf _
    exact ⟨by simp [popAll], hwf, by simp [popAll], by simp [popAll], rfl⟩
  | succ n ih =>
    intro q hwf hle
    have hpos : 0 < q.size := by omega
    obtain ⟨h1, h2, h3, h4, h5, h6⟩ := pop1_spec q hwf hpos
    obtain ⟨a, t, hat⟩ : ∃ a t, q.toList = a :: t := by
      cases h : q.toList with
      | nil =>
        have := toList_length q
        rw [h] at this
        simp at this
        omega
      | cons a t => exact ⟨a, t, rfl⟩
    have hle2 : n ≤ (pop1 q).2.2.size := by rw [h5]; omega
    obtain ⟨g1, g2, g3, g4, g5⟩ := ih (pop1 q).2.2 h3 hle2
    simp only [popAll]
    refine ⟨?_, g2, ?_, ?_, ?_⟩
    · rw [h1, h2, g1, h4, hat]
      simp
    · rw [g3, h4, hat]
      simp
    · rw [g4, h5]
      omega
    · rw [g5, h6]

/-- A single push or pop step, with the lock behaving normally. -/
inductive FqOp (α : Type) where
  | push (e : α)
  | pop

/-- Apply one operation, keeping only the queue state. -/
def applyOp {α : Type} [Inhabited α] (q : function_queue α) : FqOp α → function_queue α
  | .push e => (push1 q e).2
  | .pop => (pop1 q).2.2

/-- Apply a sequence of operations from left to right. -/
def applyOps {α : Type} [Inhabited α] (q : function_queue α)
    (ops : List (FqOp α)) : function_queue α :=
  ops.foldl applyOp q

theorem applyOp_WF {α : Type} [Inhabited α] (q : function_queue α) (op : FqOp α)
    (hwf : q.WF) : (applyOp q op).WF := by
  cases op with
  | push e =>
    by_cases h : q.size = q.max_elements
    · simp only [applyOp, push1_full q e h]
      exact hwf
    · have hlt : q.size < q.max_elements :=
        Nat.lt_of_le_of_ne hwf.2.2.1 h
      exact (push1_spec q e hwf hlt).2.1
  | pop =>
    by_cases h : q.size = 0
    · simp only [applyOp, pop1_empty q h]
      exact hwf
    · exact (pop1_spec q hwf (Nat.pos_of_ne_zero h)).2.2.1

theorem applyOps_WF {α : Type} [Inhabited α] (ops : List (FqOp α)) :
    ∀ q : function_queue α, q.WF → (applyOps q ops).WF := by
  induction ops with
  | nil => intro q hwf; exact hwf
  | cons op ops ih =>
    intro q hwf
    exact ih (applyOp q op) (applyOp_WF q op hwf)

theorem applyOp_cap {α : Type} [Inhabited α] (q : function_queue α) (op : FqOp α) :
    (applyOp q op).max_elements = q.max_elements := by
  cases op with
  | push e =>
    by_cases h : q.size = q.max_elements
    · simp only [applyOp, push1_full q e h]
    · simp only [applyOp, push1_not_full q e h]
  | pop =>
    by_cases h : q.size = 0
    · simp only [applyOp, pop1_empty q h]
    · simp only [applyOp, pop1_not_empty q h]

theorem applyOps_cap {α : Type} [Inhabited α] (ops : List (FqOp α)) :
    ∀ q : function_queue α, (applyOps q ops).max_elements = q.max_elements := by
  induction ops with
  | nil => intro q; rfl
  | cons op ops ih =>
    intro q
    exact (ih (applyOp q op)).trans (applyOp_cap q op)

theorem fq_init_ok_WF (α : Type) [Inhabited α] (N : Nat) (hN : N < UINT_MOD) :
    (fq_init_ok α N).WF := by
  unfold fq_init_ok function_queue.WF
  refine ⟨hN, by simp, by simp, ?_, by simp⟩
  intro h
  exact ⟨h, h, by simp⟩

theorem fq_init_ok_toList (α : Type) [Inhabited α] (N : Nat) :
    (fq_init_ok α N).toList = [] := by
  simp [fq_init_ok, function_queue.toList]

/-- Strictly alternating push/pop rounds: for each task of the list, one push
followed immediately by one pop, collecting the push error, the pop error and
the popped value. -/
def altRun {α : Type} [Inhabited α] (q : function_queue α) :
    List α → List (PtError × PtError × Option α) × function_queue α
  | [] => ([], q)
  | e :: ts =>
    let rp := push1 q e
    let rr := pop1 rp.2
    let rest := altRun rr.2.2 ts
    ((rp.1, rr.1, rr.2.1) :: rest.1, rest.2)

theorem altRun_spec {α : Type} [Inhabited α] (ts : List α) :
    ∀ q : function_queue α, q.WF → q.size = 0 → 0 < q.max_elements →
    (altRun q ts).1 =
      ts.map (fun e => (PtError.PT_SUCCESS, PtError.PT_SUCCESS, some e)) ∧
    (altRun q ts).2.WF ∧
    (altRun q ts).2.size = 0 ∧
    (altRun q ts).2.max_elements = q.max_elements := by
  induction ts with
  | nil =>
    intro q hwf hsz _
    exact ⟨rfl, hwf, hsz, rfl⟩
  | cons e ts ih =>
    intro q hwf hsz hpos
    have hlt : q.size < q.max_elements := by omega
    obtain ⟨h1, h2, h3, h4, h5⟩ := push1_spec q e hwf hlt
    have htl : q.toList = [] := by
      have := toList_length q
      rw [hsz] at this
      exact List.eq_nil_of_length_eq_zero this
    have hq2sz : 0 < (push1 q e).2.size := by rw [h4]; omega
    obtain ⟨g1, g2, g3, g4, g5, g6⟩ := pop1_spec (push1 q e).2 h2 hq2sz
    have hval : (pop1 (push1 q e).2).2.1 = some e := by
      rw [g2, h3, htl]
      simp
    have hsz3 : (pop1 (push1 q e).2).2.2.size = 0 := by
      rw [g5, h4]
      omega
    have hpos3 : 0 < (pop1 (push1 q e).2).2.2.max_elements := by
      rw [g6, h5]
      exact hpos
    obtain ⟨k1, k2, k3, k4⟩ := ih (pop1 (push1 q e).2).2.2 g3 hsz3 hpos3
    simp only [altRun]
    refine ⟨?_, k2, k3, ?_⟩
    · simp only [List.map_cons]
      rw [h1, g1, hval, k1]
    · rw [k4, g6, h5]

/-! ### Claims -/

/-- C1: the claim states that when lock acquisition fails, `fq_peek` and
`fq_is_full` return the corresponding LockFailed outcome (`PT_EPMTL` for a
failed try, `PT_EPML` for a failed blocking wait) without reading queue
state.  The code violates this: both functions test `ret == 0` (always true
at that point) instead of `pml == 0`, so after a failed acquisition they
still enter the critical section, read queue state (the output depends on
the storage and on `size`/`max_elements`), write the out-parameter, and
return `PT_EPMU` from the unlock of the never-acquired lock — not
`PT_EPMTL`/`PT_EPML`.  This theorem evaluates the embedded code on concrete
failing inputs (non-blocking mode, trylock failed, nested lock attempt also
failed, unlock of the unheld lock failed). -/
theorem c1_lock_check_defect :
    (fq_peek (⟨0, 1, 1, 2, [10, 20]⟩ : function_queue Nat) false false false false)
      = (PtError.PT_EPMU, some 20, ⟨0, 1, 1, 2, [10, 20]⟩) ∧
    (fq_peek (⟨0, 1, 1, 2, [10, 99]⟩ : function_queue Nat) false false false false).2.1
      = some 99 ∧
    (fq_is_full (⟨0, 1, 1, 2, [10, 20]⟩ : function_queue Nat) false false false)
      = (PtError.PT_EPMU, some false) ∧
    (fq_is_full (⟨0, 2, 2, 2, [10, 20]⟩ : function_queue Nat) false false false).2
      = some true ∧
    lockFailErr false = PtError.PT_EPMTL ∧
    lockFailErr true = PtError.PT_EPML := by
  decide

/-- C2: for every capacity-N queue and every sequence of k ≤ N pushes of
distinct tasks followed by k pops with no interleaving, every push succeeds,
every pop succeeds, and the pops return the tasks in push order. -/
theorem c2_fifo (α : Type) [Inhabited α] (N : Nat) (l : List α)
    (hN : N < UINT_MOD) (hlen : l.length ≤ N) (hnodup : l.Nodup) :
    (pushAll (fq_init_ok α N) l).1 = l.map (fun _ => PtError.PT_SUCCESS) ∧
    (popAll (pushAll (fq_init_ok α N) l).2 l.length).1
      = l.map (fun a => (PtError.PT_SUCCESS, some a)) := by
  have hwf := fq_init_ok_WF α N hN
  have hsz : (fq_init_ok α N).size + l.length ≤ (fq_init_ok α N).max_elements := by
    simp only [fq_init_ok]
    omega
  obtain ⟨p1, p2, p3, p4, p5⟩ := pushAll_spec l (fq_init_ok α N) hwf hsz
  have hle : l.length ≤ (pushAll (fq_init_ok α N) l).2.size := by
    rw [p4]
    omega
  obtain ⟨q1, q2, q3, q4, q5⟩ := popAll_spec l.length _ p2 hle
  refine ⟨p1, ?_⟩
  rw [q1, p3, fq_init_ok_toList]
  simp

/-- Witness for C2 at capacity 3 with the distinct tasks 4, 5, 6. -/
theorem c2_fifo_witness :
    (pushAll (fq_init_ok Nat 3) [4, 5, 6]).1
      = [PtError.PT_SUCCESS, PtError.PT_SUCCESS, PtError.PT_SUCCESS] ∧
    (popAll (pushAll (fq_init_ok Nat 3) [4, 5, 6]).2 3).1
      = [(PtError.PT_SUCCESS, some 4), (PtError.PT_SUCCESS, some 5),
         (PtError.PT_SUCCESS, some 6)] := by
  have h := c2_fifo Nat 3 [4, 5, 6] (by decide) (by decide) (by decide)
  simpa using h

/-- C3: under a normally behaving lock, a push against a full queue
(`size == capacity`) returns `PT_EFQFULL` and leaves the state — `count`,
`front`, `back` and every storage slot — unchanged; a push against a
non-full queue increments `size`, advances `back` to
`(back + 1) mod capacity` and writes the task into the slot at the new
`back`, touching no other slot. -/
theorem c3_push_cases {α : Type} (q : function_queue α) (e : α) (block : Bool) :
    (q.size = q.max_elements →
      fq_push q e block true true = (PtError.PT_EFQFULL, q)) ∧
    (q.size < q.max_elements → q.max_elements < UINT_MOD →
      q.back < q.max_elements →
      fq_push q e block true true =
        (PtError.PT_SUCCESS,
         { q with
           size := q.size + 1
           back := (q.back + 1) % q.max_elements
           elements := q.elements.set ((q.back + 1) % q.max_elements) e })) := by
  constructor
  · intro h
    simp [fq_push, h]
  · intro h hcap hb
    have hne : q.size ≠ q.max_elements := Nat.ne_of_lt h
    have hbeq : (q.size == q.max_elements) = false := by
      simp [hne]
    have h2 : (q.size + 1) % UINT_MOD = q.size + 1 := succ_mod_uint h hcap
    have h3 : incWrap q.back q.max_elements = (q.back + 1) % q.max_elements :=
      incWrap_eq_mod hb hcap
    simp [fq_push, hbeq, h2, h3]

/-- Witness for C3: a full queue of capacity 2 rejects a push unchanged, and
a push into an empty capacity-2 queue advances `back` to 1 and writes slot 1. -/
theorem c3_push_cases_witness :
    fq_push (⟨0, 2, 2, 2, [10, 20]⟩ : function_queue Nat) 9 false true true
      = (PtError.PT_EFQFULL, ⟨0, 2, 2, 2, [10, 20]⟩) ∧
    fq_push (⟨0, 0, 0, 2, [10, 20]⟩ : function_queue Nat) 9 true true true
      = (PtError.PT_SUCCESS, ⟨0, 1, 1, 2, [10, 9]⟩) := by
  constructor
  · exact (c3_push_cases (⟨0, 2, 2, 2, [10, 20]⟩ : function_queue Nat) 9 false).1 rfl
  · have h := (c3_push_cases (⟨0, 0, 0, 2, [10, 20]⟩ : function_queue Nat) 9 true).2
      (by decide) (by decide) (by decide)
    rw [h]
    decide

/-- C4: under a normally behaving lock, a pop from an empty queue
(`size == 0`) returns `PT_EFQEMPTY` and leaves the state unchanged; a pop
from a non-empty queue decrements `size`, advances `front` to
`(front + 1) mod capacity` and returns the task stored at the new `front`,
leaving `back` and the storage unchanged. -/
theorem c4_pop_cases {α : Type} [Inhabited α] (q : function_queue α) (block : Bool) :
    (q.size = 0 →
      fq_pop q block true true = (PtError.PT_EFQEMPTY, none, q)) ∧
    (0 < q.size → q.size ≤ q.max_elements → q.max_elements < UINT_MOD →
      q.front < q.max_elements →
      fq_pop q block true true =
        (PtError.PT_SUCCESS,
         some (q.elements.getD ((q.front + 1) % q.max_elements) default),
         { q with
           size := q.size - 1
           front := (q.front + 1) % q.max_elements })) := by
  constructor
  · intro h
    simp [fq_pop, h]
  · intro h hsz hcap hf
    have hne : q.size ≠ 0 := by omega
    have hbeq : (q.size == 0) = false := by
      simp [hne]
    have h2 : decWrap q.size = q.size - 1 :=
      decWrap_eq h (Nat.lt_of_le_of_lt hsz hcap)
    have h3 : incWrap q.front q.max_elements = (q.front + 1) % q.max_elements :=
      incWrap_eq_mod hf hcap
    simp [fq_pop, hbeq, h2, h3]

/-- Witness for C4: an empty capacity-2 queue rejects a pop unchanged, and a
pop from a one-element queue advances `front` to 1 and returns slot 1. -/
theorem c4_pop_cases_witness :
    fq_pop (⟨0, 0, 0, 2, [10, 20]⟩ : function_queue Nat) false true true
      = (PtError.PT_EFQEMPTY, none, ⟨0, 0, 0, 2, [10, 20]⟩) ∧
    fq_pop (⟨0, 1, 1, 2, [10, 20]⟩ : function_queue Nat) true true true
      = (PtError.PT_SUCCESS, some 20, ⟨1, 1, 0, 2, [10, 20]⟩) := by
  constructor
  · exact (c4_pop_cases (⟨0, 0, 0, 2, [10, 20]⟩ : function_queue Nat) false).1 rfl
  · have h := (c4_pop_cases (⟨0, 1, 1, 2, [10, 20]⟩ : function_queue Nat) true).2
      (by decide) (by decide) (by decide) (by decide)
    rw [h]
    decide

/-- C5: starting from a freshly constructed queue of capacity N, after any
prefix of any sequence of pushes and pops the count satisfies
`0 ≤ count ≤ N`.  (`size` is a natural number in the embedding, so
non-negativity is inherent; the substantive content is that the unsigned
decrement in pop never underflows past 0, which would make `size` huge, and
that push never drives `size` above N.) -/
theorem c5_count_invariant (α : Type) [Inhabited α] (N : Nat) (hN : N < UINT_MOD)
    (ops : List (FqOp α)) (i : Nat) :
    (applyOps (fq_init_ok α N) (ops.take i)).size ≤ N := by
  have hwf := applyOps_WF (ops.take i) (fq_init_ok α N) (fq_init_ok_WF α N hN)
  have hcap := applyOps_cap (ops.take i) (fq_init_ok α N)
  have hle := hwf.2.2.1
  rw [hcap] at hle
  simpa [fq_init_ok] using hle

/-- Witness for C5: capacity 1, a sequence with an overflowing push and an
underflowing pop, checked after every prefix. -/
theorem c5_count_invariant_witness :
    (applyOps (fq_init_ok Nat 1)
      ([FqOp.push 5, FqOp.push 6, FqOp.pop, FqOp.pop].take 2)).size ≤ 1 ∧
    (applyOps (fq_init_ok Nat 1)
      ([FqOp.push 5, FqOp.push 6, FqOp.pop, FqOp.pop].take 4)).size ≤ 1 :=
  ⟨c5_count_invariant Nat 1 (by decide) [FqOp.push 5, FqOp.push 6, FqOp.pop, FqOp.pop] 2,
   c5_count_invariant Nat 1 (by decide) [FqOp.push 5, FqOp.push 6, FqOp.pop, FqOp.pop] 4⟩

/-- C6: on a non-empty well-formed queue, peek (under a normally behaving
lock) returns the task at `(front + 1) mod capacity`, which is exactly the
task the next pop would return, and leaves the entire queue state unchanged;
hence consecutive peeks keep returning that same task. -/
theorem c6_peek_frame {α : Type} [Inhabited α] (q : function_queue α)
    (hwf : q.WF) (hne : q.size ≠ 0) :
    peek1 q = (PtError.PT_SUCCESS,
               some (q.elements.getD ((q.front + 1) % q.max_elements) default), q) ∧
    (pop1 q).2.1 = some (q.elements.getD ((q.front + 1) % q.max_elements) default) ∧
    (peek1 ((peek1 q).2.2)).2.1 = (peek1 q).2.1 := by
  obtain ⟨hcap, hlen, hsz, hrange, hzero⟩ := hwf
  have hcappos : 0 < q.max_elements := by omega
  obtain ⟨hf, hb, hfb⟩ := hrange hcappos
  have h3 : incWrap q.front q.max_elements = (q.front + 1) % q.max_elements :=
    incWrap_eq_mod hf hcap
  have hbeq : (q.size == 0) = false := by simp [hne]
  have hpk : peek1 q = (PtError.PT_SUCCESS,
      some (q.elements.getD ((q.front + 1) % q.max_elements) default), q) := by
    simp [peek1, fq_peek, hbeq, h3]
  refine ⟨hpk, ?_, ?_⟩
  · rw [pop1_not_empty q hne, h3]
  · conv_lhs => rw [hpk]

/-- Witness for C6: a one-element capacity-2 queue; peek returns slot 1, pop
would return the same task, and a second peek agrees. -/
theorem c6_peek_frame_witness :
    peek1 (⟨0, 1, 1, 2, [10, 20]⟩ : function_queue Nat)
      = (PtError.PT_SUCCESS, some 20, ⟨0, 1, 1, 2, [10, 20]⟩) ∧
    (pop1 (⟨0, 1, 1, 2, [10, 20]⟩ : function_queue Nat)).2.1 = some 20 := by
  have h := c6_peek_frame (⟨0, 1, 1, 2, [10, 20]⟩ : function_queue Nat)
    (by decide) (by decide)
  exact ⟨by rw [h.1]; decide, by rw [h.2.1]; decide⟩

/-- C7: on a queue of capacity N ≥ 1, a strictly alternating sequence of 2N
operations (push t1, pop, …, push tN, pop) has every push and pop succeed,
every pop returns the task of the immediately preceding push, and the final
count is 0 — the index arithmetic wraps modulo N in both directions. -/
theorem c7_wraparound (α : Type) [Inhabited α] (N : Nat) (ts : List α)
    (hpos : 0 < N) (hN : N < UINT_MOD) (hlen : ts.length = N) :
    (altRun (fq_init_ok α N) ts).1 =
      ts.map (fun e => (PtError.PT_SUCCESS, PtError.PT_SUCCESS, some e)) ∧
    (altRun (fq_init_ok α N) ts).2.size = 0 := by
  have h := altRun_spec ts (fq_init_ok α N) (fq_init_ok_WF α N hN) rfl hpos
  exact ⟨h.1, h.2.2.1⟩

/-- Witness for C7: capacity 2, four alternating operations
(push 7, pop, push 8, pop). -/
theorem c7_wraparound_witness :
    (altRun (fq_init_ok Nat 2) [7, 8]).1 =
      [(PtError.PT_SUCCESS, PtError.PT_SUCCESS, some 7),
       (PtError.PT_SUCCESS, PtError.PT_SUCCESS, some 8)] ∧
    (altRun (fq_init_ok Nat 2) [7, 8]).2.size = 0 := by
  have h := c7_wraparound Nat 2 [7, 8] (by decide) (by decide) (by decide)
  simpa using h

/-- C8 counterexample: on a freshly constructed queue of capacity 1 the
first push succeeds but advances `back` to `(0 + 1) mod 1 = 0`, not to 1,
and writes the task into slot 0 — refuting the claim's "the first push
advances `back` to 1 before writing the task there" for every fresh
queue. -/
theorem c8_counterexample :
    (push1 (fq_init_ok Nat 1) 7).1 = PtError.PT_SUCCESS ∧
    (push1 (fq_init_ok Nat 1) 7).2.back = 0 ∧
    ¬ (push1 (fq_init_ok Nat 1) 7).2.back = 1 ∧
    (push1 (fq_init_ok Nat 1) 7).2.elements = [7] := by
  decide

/-- C8 (amended): a freshly constructed queue has `front = back = 0` and
`count = 0` and holds no valid data; the first push advances `back` to
`(0 + 1) mod capacity` before writing the task there — which is 1 whenever
the capacity is at least 2 (for capacity 1 the increment wraps back to
slot 0). -/
theorem c8_fresh_queue (α : Type) [Inhabited α] (N : Nat) (e : α)
    (hN : N < UINT_MOD) (h2 : 2 ≤ N) :
    (fq_init_ok α N).front = 0 ∧ (fq_init_ok α N).back = 0 ∧
    (fq_init_ok α N).size = 0 ∧ (fq_init_ok α N).toList = [] ∧
    (push1 (fq_init_ok α N) e).1 = PtError.PT_SUCCESS ∧
    (push1 (fq_init_ok α N) e).2.back = 1 ∧
    (push1 (fq_init_ok α N) e).2.elements = (List.replicate N default).set 1 e := by
  have hne : (fq_init_ok α N).size ≠ (fq_init_ok α N).max_elements := by
    simp only [fq_init_ok]
    omega
  have hiw : incWrap 0 N = 1 := by
    show (if (0 + 1) % UINT_MOD = N then 0 else (0 + 1) % UINT_MOD) = 1
    have h1 : (0 + 1) % UINT_MOD = 1 := by decide
    rw [h1, if_neg (by omega)]
  rw [push1_not_full _ e hne]
  refine ⟨rfl, rfl, rfl, fq_init_ok_toList α N, rfl, ?_, ?_⟩
  · show incWrap 0 N = 1
    exact hiw
  · show (List.replicate N default).set (incWrap 0 N) e = (List.replicate N default).set 1 e
    rw [hiw]

/-- Witness for the amended C8 at capacity 3. -/
theorem c8_fresh_queue_witness :
    (push1 (fq_init_ok Nat 3) 5).1 = PtError.PT_SUCCESS ∧
    (push1 (fq_init_ok Nat 3) 5).2.back = 1 ∧
    (push1 (fq_init_ok Nat 3) 5).2.elements = [0, 5, 0] := by
  have h := c8_fresh_queue Nat 3 5 (by decide) (by decide)
  exact ⟨h.2.2.2.2.1, h.2.2.2.2.2.1, by rw [h.2.2.2.2.2.2]; decide⟩

/-- C9: the success path of construction with capacity 0 yields a queue on
which (under a normally behaving lock, in both modes) every push fails with
`PT_EFQFULL` and every pop fails with `PT_EFQEMPTY`, each leaving the state
unchanged; and when the buffer allocation reports failure, construction
fails cleanly with `PT_EMALLOC` and returns no queue. -/
theorem c9_capacity_zero (α : Type) [Inhabited α] (e : α) (block : Bool) :
    fq_push (fq_init_ok α 0) e block true true
      = (PtError.PT_EFQFULL, fq_init_ok α 0) ∧
    fq_pop (fq_init_ok α 0) block true true
      = (PtError.PT_EFQEMPTY, none, fq_init_ok α 0) ∧
    fq_init α 0 true true true true false true = (PtError.PT_EMALLOC, none) := by
  refine ⟨?_, ?_, rfl⟩
  · simp [fq_push, fq_init_ok]
  · simp [fq_pop, fq_init_ok]

/-- C10: in push, pop and peek, when the lock was acquired but the final
unlock fails, the operation returns `PT_EPMU` (LockReleaseFailed) no matter
what happened inside the critical section — it overwrites a `PT_EFQFULL`,
`PT_EFQEMPTY` or success outcome — while the state (including any mutation
performed before the failed unlock) is exactly the state the successful-
unlock run would leave. -/
theorem c10_unlock_masking {α : Type} [Inhabited α] (q : function_queue α)
    (e : α) (block : Bool) :
    ((fq_push q e block true false).1 = PtError.PT_EPMU ∧
     (fq_push q e block true false).2 = (fq_push q e block true true).2) ∧
    ((fq_pop q block true false).1 = PtError.PT_EPMU ∧
     (fq_pop q block true false).2 = (fq_pop q block true true).2) ∧
    ((fq_peek q block true true false).1 = PtError.PT_EPMU ∧
     (fq_peek q block true true false).2 = (fq_peek q block true true true).2) := by
  refine ⟨⟨rfl, rfl⟩, ⟨?_, ?_⟩, ⟨?_, ?_⟩⟩ <;>
    simp [fq_pop, fq_peek, apply_ite]
